import Mathlib

/-!
Shallow embedding of the NEO-explorer program: the entity layer of
`models.py`, the linking database of `database.py`, and the predicate
system of `filters.py`.  Python machine floats are modelled as rationals
together with an explicit not-a-number value; Python exceptions are an
explicit error type threaded through `Except`; Python dictionaries are
association lists where the most recent insertion shadows earlier ones.
-/

namespace NeoExplorer

/-- Comparison operators from the operator module used by the predicate system. -/
inductive CmpOp where
  | eq
  | ge
  | le
deriving DecidableEq

/-- Python exceptions that the embedded code can raise. -/
inductive PyExc where
  | typeError
  | valueError
  | assertionError (msg : String)
  | keyError (key : String)
  | unsupportedCriterionError
  | attributeError (msg : String)
deriving DecidableEq

/-- A Python float: an explicit not-a-number value, or a finite value modelled
as a rational (the program only compares floats, never does arithmetic). -/
inductive PyFloat where
  | nan
  | val (q : Rat)
deriving DecidableEq

/-- A dynamically typed Python value that may be handed to the float coercion:
the absent value, a string, or an existing float. -/
inductive PyVal where
  | vnone
  | vstr (s : String)
  | vfloat (x : PyFloat)
deriving DecidableEq

/-- Lowercase a string character-wise: the model of the Python lower method
used for the case-insensitive keys. -/
def strLower (s : String) : String := String.mk (s.data.map Char.toLower)

/-- Split a character list at every occurrence of the separator. -/
def splitChars (sep : Char) : List Char → List (List Char)
  | [] => [[]]
  | x :: xs =>
    if x = sep then [] :: splitChars sep xs
    else
      match splitChars sep xs with
      | [] => [[x]]
      | g :: gs => (x :: g) :: gs

/-- Decimal digit test. -/
def isDigitC (c : Char) : Bool := decide ('0' ≤ c ∧ c ≤ '9')

/-- Accumulator of the digit-sequence parser; the accumulator is absent while
no digit has been consumed, so the empty sequence does not parse. -/
def charsToNatAux : List Char → Option Nat → Option Nat
  | [], acc => acc
  | c :: cs, acc =>
    if isDigitC c then
      charsToNatAux cs (some ((acc.getD 0) * 10 + (c.toNat - '0'.toNat)))
    else none

/-- Parse a non-empty all-digit character sequence. -/
def charsToNat (cs : List Char) : Option Nat := charsToNatAux cs none

/-- Whitespace test for the stripping the float coercion performs. -/
def isSpaceC (c : Char) : Bool :=
  decide (c = ' ' ∨ c = '\t' ∨ c = '\n' ∨ c = '\r')

/-- Strip leading and trailing whitespace. -/
def trimChars (cs : List Char) : List Char :=
  ((cs.dropWhile isSpaceC).reverse.dropWhile isSpaceC).reverse

/-- Parse the integer-dot-fraction fragment of the Python float literal
grammar (the only fragment the program relies on), without sign. -/
def parseDecimalCore (body : List Char) : Option Rat :=
  match splitChars '.' body with
  | [ip] => (charsToNat ip).map (fun n => (n : Rat))
  | [ip, fp] =>
    if ip = [] ∧ fp = [] then none
    else
      match (if ip = [] then some 0 else charsToNat ip),
            (if fp = [] then some 0 else charsToNat fp) with
      | some a, some b => some ((a : Rat) + (b : Rat) / ((10 : Rat) ^ fp.length))
      | _, _ => none
  | _ => none

/-- Parse a decimal literal with an optional sign. -/
def parseDecimal (cs : List Char) : Option Rat :=
  match cs with
  | '-' :: rest => (parseDecimalCore rest).map (fun q => -q)
  | '+' :: rest => parseDecimalCore rest
  | _ => parseDecimalCore cs

/-- The Python float coercion applied to a string: after stripping
whitespace it accepts the not-a-number literal (case-insensitive) and
decimal literals, raising a value error otherwise. -/
def pyFloatOfString (s : String) : Except PyExc PyFloat :=
  let t := (trimChars s.data).map Char.toLower
  if t = "nan".data ∨ t = "+nan".data ∨ t = "-nan".data then
    Except.ok PyFloat.nan
  else
    match parseDecimal (trimChars s.data) with
    | some q => Except.ok (PyFloat.val q)
    | none => Except.error PyExc.valueError

/-- The Python float coercion: a type error on the absent value, string
parsing on strings, the identity on floats. -/
def pyFloat : PyVal → Except PyExc PyFloat
  | PyVal.vnone => Except.error PyExc.typeError
  | PyVal.vstr s => pyFloatOfString s
  | PyVal.vfloat x => Except.ok x

/-- The not-a-number test from the math module. -/
def isnan : PyFloat → Bool
  | PyFloat.nan => true
  | PyFloat.val _ => false

/-- Strictly-positive test on a Python float; false on not-a-number, as in
Python where every comparison against not-a-number is false. -/
def pyGtZeroB : PyFloat → Bool
  | PyFloat.nan => false
  | PyFloat.val q => decide (0 < q)

/-- A calendar date, as produced by the date method of a Python datetime. -/
structure Date where
  year : Nat
  month : Nat
  day : Nat
deriving DecidableEq

/-- A calendar date-time with minute precision, as produced by the helper
that parses the close-approach time literal. -/
structure Datetime where
  date : Date
  hour : Nat
  minute : Nat
deriving DecidableEq

/-- Boolean less-or-equal on dates, lexicographic on year, month, day. -/
def dateLeB (a b : Date) : Bool :=
  decide (a.year < b.year ∨
    (a.year = b.year ∧ (a.month < b.month ∨ (a.month = b.month ∧ a.day ≤ b.day))))

/-- Apply a comparison operator to two dates. -/
def dateCmp : CmpOp → Date → Date → Bool
  | CmpOp.eq, a, b => decide (a = b)
  | CmpOp.ge, a, b => dateLeB b a
  | CmpOp.le, a, b => dateLeB a b

/-- Apply a comparison operator to two Python floats; any comparison involving
not-a-number is false, as in Python. -/
def pyCmp : CmpOp → PyFloat → PyFloat → Bool
  | _, PyFloat.nan, _ => false
  | _, _, PyFloat.nan => false
  | CmpOp.eq, PyFloat.val a, PyFloat.val b => decide (a = b)
  | CmpOp.ge, PyFloat.val a, PyFloat.val b => decide (b ≤ a)
  | CmpOp.le, PyFloat.val a, PyFloat.val b => decide (a ≤ b)

/-- Apply a comparison operator to two booleans (Python booleans are the
integers zero and one). -/
def boolCmp : CmpOp → Bool → Bool → Bool
  | CmpOp.eq, a, b => a == b
  | CmpOp.ge, a, b => a || !b
  | CmpOp.le, a, b => !a || b

/-- A close approach record.  The reference to its near-Earth object is an
optional index into the database NEO collection, absent at construction and
resolved by the database constructor. -/
structure CloseApproach where
  designation : String
  time : Datetime
  distance : PyFloat
  velocity : PyFloat
  neo : Option Nat
deriving DecidableEq

/-- A near-Earth object record.  Its approaches sequence is empty at
construction and populated by the database constructor. -/
structure NearEarthObject where
  designation : String
  name : Option String
  diameter : PyFloat
  hazardous : Bool
  approaches : List CloseApproach
deriving DecidableEq

/-- Three-letter month names of the compact calendar literal. -/
def monthFromName (s : List Char) : Option Nat :=
  if s = "Jan".data then some 1 else if s = "Feb".data then some 2
  else if s = "Mar".data then some 3 else if s = "Apr".data then some 4
  else if s = "May".data then some 5 else if s = "Jun".data then some 6
  else if s = "Jul".data then some 7 else if s = "Aug".data then some 8
  else if s = "Sep".data then some 9 else if s = "Oct".data then some 10
  else if s = "Nov".data then some 11 else if s = "Dec".data then some 12
  else none

/-- Modelled from the spec: the time helper module is not among the sources
under review, and the spec describes this helper as parsing a compact calendar
literal of the form year-month-day hour:minute into a date-time.  A malformed
literal is a value error. -/
def cd_to_datetime (s : String) : Except PyExc Datetime :=
  match splitChars ' ' s.data with
  | [d, t] =>
    match splitChars '-' d, splitChars ':' t with
    | [y, mon, dd], [hh, mi] =>
      match charsToNat y, monthFromName mon, charsToNat dd,
            charsToNat hh, charsToNat mi with
      | some yv, some mv, some dv, some hv, some miv =>
        if 1 ≤ dv ∧ dv ≤ 31 ∧ hv < 24 ∧ miv < 60 then
          Except.ok (Datetime.mk (Date.mk yv mv dv) hv miv)
        else Except.error PyExc.valueError
      | _, _, _, _, _ => Except.error PyExc.valueError
    | _, _ => Except.error PyExc.valueError
  | _ => Except.error PyExc.valueError

/-- Message of the assertion guarding the designation on both entity types. -/
def designationRequiredMsg : String := "Attribute designation is required"

/-- Constructor of a near-Earth object.  It asserts a present, non-empty
designation, stores the name unchanged, coerces the diameter with the Python
float coercion (which raises on an absent or unparseable argument), and
asserts that the diameter is positive or not-a-number. -/
def NearEarthObject.init (designation : Option String) (name : Option String)
    (diameter : PyVal) (hazardous : Bool) : Except PyExc NearEarthObject :=
  match designation with
  | none => Except.error (PyExc.assertionError designationRequiredMsg)
  | some des =>
    if des = "" then Except.error (PyExc.assertionError designationRequiredMsg)
    else
      match pyFloat diameter with
      | Except.error e => Except.error e
      | Except.ok f =>
        let diam := if isnan f then PyFloat.nan else f
        if pyGtZeroB diam || isnan f then
          Except.ok (NearEarthObject.mk des name diam hazardous [])
        else Except.error (PyExc.assertionError "")

/-- Constructor of a close approach.  It asserts a present, non-empty
designation, parses the time literal, coerces distance and velocity to
floats, and leaves the NEO reference absent. -/
def CloseApproach.init (designation : Option String) (time : String)
    (distance : PyVal) (velocity : PyVal) : Except PyExc CloseApproach :=
  match designation with
  | none => Except.error (PyExc.assertionError designationRequiredMsg)
  | some des =>
    if des = "" then Except.error (PyExc.assertionError designationRequiredMsg)
    else
      match cd_to_datetime time with
      | Except.error e => Except.error e
      | Except.ok t =>
        match pyFloat distance with
        | Except.error e => Except.error e
        | Except.ok dist =>
          match pyFloat velocity with
          | Except.error e => Except.error e
          | Except.ok vel => Except.ok (CloseApproach.mk des t dist vel none)

/-- Python dictionary assignment on an association list: the new binding
shadows any earlier binding of the same key. -/
def dictInsert (d : List (String × Nat)) (k : String) (v : Nat) :
    List (String × Nat) :=
  (k, v) :: d

/-- Python dictionary lookup on an association list: the most recent binding
of the key wins. -/
def dictGet : List (String × Nat) → String → Option Nat
  | [], _ => none
  | p :: rest, k => if p.1 = k then some p.2 else dictGet rest k

/-- The first loop of the database constructor: index every NEO (by position)
under its lowercased designation, and under its lowercased name when the name
is present. -/
def buildIndices : List NearEarthObject → Nat → List (String × Nat) →
    List (String × Nat) → List (String × Nat) × List (String × Nat)
  | [], _, dIdx, nIdx => (dIdx, nIdx)
  | neo :: rest, i, dIdx, nIdx =>
    buildIndices rest (i + 1) (dictInsert dIdx (strLower neo.designation) i)
      (match neo.name with
       | some nm => dictInsert nIdx (strLower nm) i
       | none => nIdx)

/-- Append a close approach, in place, to the approaches sequence of the NEO
at the given position. -/
def appendTo : List NearEarthObject → Nat → CloseApproach →
    List NearEarthObject
  | [], _, _ => []
  | neo :: rest, 0, app =>
    NearEarthObject.mk neo.designation neo.name neo.diameter neo.hazardous
      (neo.approaches ++ [app]) :: rest
  | neo :: rest, i + 1, app => neo :: appendTo rest i app

/-- The linked copy of an approach: the same record with its NEO reference
set to the resolved position. -/
def linkApp (i : Nat) (a : CloseApproach) : CloseApproach :=
  CloseApproach.mk a.designation a.time a.distance a.velocity (some i)

/-- The second loop of the database constructor: resolve each approach against
the designation index (raising a key error when the lowercased designation is
unbound), set its NEO reference, and append it to that NEO's approaches. -/
def linkLoop (desIdx : List (String × Nat)) :
    List NearEarthObject → List CloseApproach →
    Except PyExc (List NearEarthObject × List CloseApproach)
  | neos, [] => Except.ok (neos, [])
  | neos, app :: rest =>
    match dictGet desIdx (strLower app.designation) with
    | none => Except.error (PyExc.keyError (strLower app.designation))
    | some i =>
      match linkLoop desIdx (appendTo neos i (linkApp i app)) rest with
      | Except.error e => Except.error e
      | Except.ok (neos2, rest2) => Except.ok (neos2, linkApp i app :: rest2)

/-- The database: the linked NEO and approach collections together with the
two lookup indices built at construction. -/
structure NEODatabase where
  neos : List NearEarthObject
  approaches : List CloseApproach
  designation_to_neo : List (String × Nat)
  name_to_neo : List (String × Nat)
deriving DecidableEq

/-- The database constructor: build both indices, then link every approach. -/
def NEODatabase.init (neos : List NearEarthObject)
    (approaches : List CloseApproach) : Except PyExc NEODatabase :=
  let idxs := buildIndices neos 0 [] []
  match linkLoop idxs.1 neos approaches with
  | Except.error e => Except.error e
  | Except.ok (neos2, apps2) =>
    Except.ok (NEODatabase.mk neos2 apps2 idxs.1 idxs.2)

/-- Lookup of a NEO by designation, case-insensitive, absent when unbound. -/
def NEODatabase.get_neo_by_designation (db : NEODatabase)
    (designation : String) : Option NearEarthObject :=
  match dictGet db.designation_to_neo (strLower designation) with
  | none => none
  | some i => db.neos[i]?

/-- Lookup of a NEO by name, case-insensitive, absent when unbound. -/
def NEODatabase.get_neo_by_name (db : NEODatabase) (name : String) :
    Option NearEarthObject :=
  match dictGet db.name_to_neo (strLower name) with
  | none => none
  | some i => db.neos[i]?

/-- The inner loop of the query generator: the approach passes while every
predicate holds, stopping at the first failing predicate. -/
def passesAll : List (CloseApproach → Bool) → CloseApproach → Bool
  | [], _ => true
  | f :: rest, a => if f a then passesAll rest a else false

/-- The query generator: stream the approaches that pass every predicate, in
the order of the approach collection. -/
def NEODatabase.query (db : NEODatabase)
    (filters : List (CloseApproach → Bool)) : List CloseApproach :=
  db.approaches.filter (passesAll filters)

/-- The predicate family: the unspecialized base predicate and its five
specialized variants, each holding a comparison operator and a reference
value captured at construction. -/
inductive Filter where
  | base (op : CmpOp) (value : PyFloat)
  | date (op : CmpOp) (value : Date)
  | distance (op : CmpOp) (value : PyFloat)
  | velocity (op : CmpOp) (value : PyFloat)
  | diameter (op : CmpOp) (value : PyFloat)
  | hazardous (op : CmpOp) (value : Bool)
deriving DecidableEq

/-- Accessor of the date variant: the date component of the approach time. -/
def DateFilter.get (a : CloseApproach) : Date := a.time.date

/-- Accessor of the distance variant. -/
def DistanceFilter.get (a : CloseApproach) : PyFloat := a.distance

/-- Accessor of the velocity variant. -/
def VelocityFilter.get (a : CloseApproach) : PyFloat := a.velocity

/-- Message of the attribute error raised on attribute access through an
absent NEO reference. -/
def noneAttrMsg (attr : String) : String :=
  "NoneType object has no attribute " ++ attr

/-- Accessor of the diameter variant: reads the diameter through the NEO
reference of the approach, raising an attribute error when that reference is
still absent. -/
def DiameterFilter.get (neos : List NearEarthObject) (a : CloseApproach) :
    Except PyExc PyFloat :=
  match a.neo with
  | none => Except.error (PyExc.attributeError (noneAttrMsg "diameter"))
  | some i =>
    match neos[i]? with
    | some neo => Except.ok neo.diameter
    | none => Except.error (PyExc.attributeError (noneAttrMsg "diameter"))

/-- Accessor of the hazardous variant: reads the hazard flag through the NEO
reference of the approach, raising an attribute error when that reference is
still absent. -/
def HazardousFilter.get (neos : List NearEarthObject) (a : CloseApproach) :
    Except PyExc Bool :=
  match a.neo with
  | none => Except.error (PyExc.attributeError (noneAttrMsg "hazardous"))
  | some i =>
    match neos[i]? with
    | some neo => Except.ok neo.hazardous
    | none => Except.error (PyExc.attributeError (noneAttrMsg "hazardous"))

/-- Calling a predicate on an approach: fetch the attribute of interest with
the variant's accessor and compare it against the reference value.  The
unspecialized base predicate raises the unsupported-criterion error from its
accessor before the comparison is reached.  The NEO collection of the
enclosing database supplies the referent of the approach's NEO index. -/
def Filter.eval (neos : List NearEarthObject) :
    Filter → CloseApproach → Except PyExc Bool
  | Filter.base _ _, _ => Except.error PyExc.unsupportedCriterionError
  | Filter.date op v, a => Except.ok (dateCmp op (DateFilter.get a) v)
  | Filter.distance op v, a => Except.ok (pyCmp op (DistanceFilter.get a) v)
  | Filter.velocity op v, a => Except.ok (pyCmp op (VelocityFilter.get a) v)
  | Filter.diameter op v, a =>
    match DiameterFilter.get neos a with
    | Except.error e => Except.error e
    | Except.ok x => Except.ok (pyCmp op x v)
  | Filter.hazardous op v, a =>
    match HazardousFilter.get neos a with
    | Except.error e => Except.error e
    | Except.ok x => Except.ok (boolCmp op x v)

/-- One conditional append of the factory, date-valued criteria. -/
def appendDateF (fs : List Filter) (v : Option Date) (op : CmpOp) :
    List Filter :=
  match v with
  | none => fs
  | some d => fs ++ [Filter.date op d]

/-- One conditional append of the factory, numeric criteria: the reference
value goes through the Python float coercion, whose failure propagates. -/
def appendNumF (fs : List Filter) (v : Option PyVal) (mk : PyFloat → Filter) :
    Except PyExc (List Filter) :=
  match v with
  | none => Except.ok fs
  | some x =>
    match pyFloat x with
    | Except.ok q => Except.ok (fs ++ [mk q])
    | Except.error e => Except.error e

/-- One conditional append of the factory, the hazardous criterion: the
boolean coercion of a boolean is the identity. -/
def appendHazF (fs : List Filter) (v : Option Bool) : List Filter :=
  match v with
  | none => fs
  | some b => fs ++ [Filter.hazardous CmpOp.eq b]

/-- The factory: for each supplied criterion, append one predicate of the
matching variant, operator, and coerced reference value, in the fixed source
order date, start date, end date, distance bounds, velocity bounds, diameter
bounds, hazardous. -/
def create_filters (date start_date end_date : Option Date)
    (distance_min distance_max velocity_min velocity_max
     diameter_min diameter_max : Option PyVal)
    (hazardous : Option Bool) : Except PyExc (List Filter) :=
  let fs := appendDateF [] date CmpOp.eq
  let fs := appendDateF fs start_date CmpOp.ge
  let fs := appendDateF fs end_date CmpOp.le
  match appendNumF fs distance_min (Filter.distance CmpOp.ge) with
  | Except.error e => Except.error e
  | Except.ok fs =>
    match appendNumF fs distance_max (Filter.distance CmpOp.le) with
    | Except.error e => Except.error e
    | Except.ok fs =>
      match appendNumF fs velocity_min (Filter.velocity CmpOp.ge) with
      | Except.error e => Except.error e
      | Except.ok fs =>
        match appendNumF fs velocity_max (Filter.velocity CmpOp.le) with
        | Except.error e => Except.error e
        | Except.ok fs =>
          match appendNumF fs diameter_min (Filter.diameter CmpOp.ge) with
          | Except.error e => Except.error e
          | Except.ok fs =>
            match appendNumF fs diameter_max (Filter.diameter CmpOp.le) with
            | Except.error e => Except.error e
            | Except.ok fs => Except.ok (appendHazF fs hazardous)

/-- The limiter: an absent or zero cap returns the sequence unchanged; a
positive cap takes that many items; a negative cap is a value error, as
raised by the slicing combinator. -/
def limit (iterator : List α) (n : Option Int) : Except PyExc (List α) :=
  match n with
  | none => Except.ok iterator
  | some k =>
    if k = 0 then Except.ok iterator
    else if k < 0 then Except.error PyExc.valueError
    else Except.ok (iterator.take k.toNat)

/-! Basic lemmas about the query loop and the predicate factory. -/

theorem passesAll_eq_all (filters : List (CloseApproach → Bool))
    (a : CloseApproach) : passesAll filters a = filters.all (fun f => f a) := by
  induction filters with
  | nil => rfl
  | cons f rest ih =>
    simp only [passesAll, List.all_cons, ih]
    cases f a <;> simp

theorem all_perm_eq (l1 l2 : List (CloseApproach → Bool)) (h : List.Perm l1 l2)
    (a : CloseApproach) :
    l1.all (fun f => f a) = l2.all (fun f => f a) := by
  have h12 : l1.all (fun f => f a) = true → l2.all (fun f => f a) = true := by
    intro hb
    rw [List.all_eq_true] at hb ⊢
    intro f hf
    exact hb f (h.mem_iff.mpr hf)
  have h21 : l2.all (fun f => f a) = true → l1.all (fun f => f a) = true := by
    intro hb
    rw [List.all_eq_true] at hb ⊢
    intro f hf
    exact hb f (h.mem_iff.mp hf)
  cases hc1 : l1.all (fun f => f a) <;> cases hc2 : l2.all (fun f => f a) <;>
    simp_all

/-- Claim C2: for every database and every list of predicates, the query
yields exactly the approaches satisfying every predicate (logical AND), in
the original order of the approach collection; an empty predicate list
yields the whole collection, and a permutation of the predicate list leaves
the result unchanged. -/
theorem query_filters_spec (db : NEODatabase)
    (l1 l2 : List (CloseApproach → Bool)) (hperm : List.Perm l1 l2) :
    (∀ a, a ∈ db.query l1 ↔ a ∈ db.approaches ∧ ∀ f ∈ l1, f a = true) ∧
    db.query l1 = db.approaches.filter (fun a => l1.all (fun f => f a)) ∧
    db.query [] = db.approaches ∧
    db.query l1 = db.query l2 := by
  have hfilter : ∀ l : List (CloseApproach → Bool),
      db.query l = db.approaches.filter (fun a => l.all (fun f => f a)) := by
    intro l
    unfold NEODatabase.query
    congr 1
    funext a
    exact passesAll_eq_all l a
  refine ⟨?_, hfilter l1, ?_, ?_⟩
  · intro a
    rw [hfilter l1, List.mem_filter]
    simp [List.all_eq_true]
  · rw [hfilter []]
    simp
  · rw [hfilter l1, hfilter l2]
    congr 1
    funext a
    exact all_perm_eq l1 l2 hperm a

/-- Claim C9: evaluating the unspecialized base predicate on any approach
fails with the dedicated unsupported-criterion error, while each of the five
specialized variants, on an approach linked to a NEO of the database,
returns the comparison of its accessor value against the reference value
and never raises that error. -/
theorem filter_eval_spec (neos : List NearEarthObject) (a b : CloseApproach)
    (op : CmpOp) (dv : Date) (qv : PyFloat) (bv : Bool) (i : Nat)
    (neo : NearEarthObject) (hlink : a.neo = some i)
    (hneo : neos[i]? = some neo) :
    Filter.eval neos (Filter.base op qv) b =
      Except.error PyExc.unsupportedCriterionError ∧
    Filter.eval neos (Filter.date op dv) a =
      Except.ok (dateCmp op (DateFilter.get a) dv) ∧
    Filter.eval neos (Filter.distance op qv) a =
      Except.ok (pyCmp op (DistanceFilter.get a) qv) ∧
    Filter.eval neos (Filter.velocity op qv) a =
      Except.ok (pyCmp op (VelocityFilter.get a) qv) ∧
    Filter.eval neos (Filter.diameter op qv) a =
      Except.ok (pyCmp op neo.diameter qv) ∧
    Filter.eval neos (Filter.hazardous op bv) a =
      Except.ok (boolCmp op neo.hazardous bv) := by
  refine ⟨rfl, rfl, rfl, rfl, ?_, ?_⟩ <;>
    simp [Filter.eval, DiameterFilter.get, HazardousFilter.get, hlink, hneo]

/-- Claim C10: on an approach whose NEO reference is still absent, the
diameter and hazardous variants fail with an attribute error on the absent
reference, while the date, distance, and velocity variants evaluate to a
boolean computed from the approach alone. -/
theorem unlinked_filter_spec (neos : List NearEarthObject) (a : CloseApproach)
    (op : CmpOp) (dv : Date) (qv : PyFloat) (bv : Bool) (h : a.neo = none) :
    Filter.eval neos (Filter.diameter op qv) a =
      Except.error (PyExc.attributeError (noneAttrMsg "diameter")) ∧
    Filter.eval neos (Filter.hazardous op bv) a =
      Except.error (PyExc.attributeError (noneAttrMsg "hazardous")) ∧
    Filter.eval neos (Filter.date op dv) a =
      Except.ok (dateCmp op a.time.date dv) ∧
    Filter.eval neos (Filter.distance op qv) a =
      Except.ok (pyCmp op a.distance qv) ∧
    Filter.eval neos (Filter.velocity op qv) a =
      Except.ok (pyCmp op a.velocity qv) := by
  refine ⟨?_, ?_, rfl, rfl, rfl⟩ <;>
    simp [Filter.eval, DiameterFilter.get, HazardousFilter.get, h]

/-! The factory: shape of the produced predicate list. -/

/-- The proposition that the Python float coercion turns an optional raw
reference value into an optional float. -/
def coercesOpt (v : Option PyVal) (q : Option PyFloat) : Prop :=
  match v, q with
  | none, none => True
  | some pv, some pf => pyFloat pv = Except.ok pf
  | _, _ => False

/-- Decidable equality of results, so witnesses can be checked by
evaluation. -/
instance instDecEqExcept {ε : Type u} {α : Type v} [DecidableEq ε]
    [DecidableEq α] : DecidableEq (Except ε α)
  | Except.ok a, Except.ok b =>
    if h : a = b then Decidable.isTrue (congrArg Except.ok h)
    else Decidable.isFalse (fun hc => h (Except.ok.inj hc))
  | Except.ok _, Except.error _ =>
    Decidable.isFalse (fun hc => Except.noConfusion hc)
  | Except.error _, Except.ok _ =>
    Decidable.isFalse (fun hc => Except.noConfusion hc)
  | Except.error e, Except.error f =>
    if h : e = f then Decidable.isTrue (congrArg Except.error h)
    else Decidable.isFalse (fun hc => h (Except.error.inj hc))

/-- Decidability of the coercion proposition, so witnesses can be checked by
evaluation. -/
instance instDecCoercesOpt : (v : Option PyVal) → (q : Option PyFloat) →
    Decidable (coercesOpt v q)
  | none, none => Decidable.isTrue trivial
  | none, some _ => Decidable.isFalse (fun h => h)
  | some _, none => Decidable.isFalse (fun h => h)
  | some pv, some pf => inferInstanceAs (Decidable (pyFloat pv = Except.ok pf))

/-- The singleton-or-empty contribution of a date criterion. -/
def optDateFs (v : Option Date) (op : CmpOp) : List Filter :=
  match v with
  | none => []
  | some d => [Filter.date op d]

/-- The singleton-or-empty contribution of a numeric criterion. -/
def optNumFs (q : Option PyFloat) (mk : PyFloat → Filter) : List Filter :=
  match q with
  | none => []
  | some x => [mk x]

/-- The singleton-or-empty contribution of the hazardous criterion. -/
def optHazFs (v : Option Bool) : List Filter :=
  match v with
  | none => []
  | some b => [Filter.hazardous CmpOp.eq b]

theorem appendDateF_eq (fs : List Filter) (v : Option Date) (op : CmpOp) :
    appendDateF fs v op = fs ++ optDateFs v op := by
  cases v <;> simp [appendDateF, optDateFs]

theorem appendHazF_eq (fs : List Filter) (v : Option Bool) :
    appendHazF fs v = fs ++ optHazFs v := by
  cases v <;> simp [appendHazF, optHazFs]

theorem appendNumF_eq (v : Option PyVal) (q : Option PyFloat)
    (h : coercesOpt v q) : ∀ (fs : List Filter) (mk : PyFloat → Filter),
    appendNumF fs v mk = Except.ok (fs ++ optNumFs q mk) := by
  intro fs mk
  cases v with
  | none =>
    cases q with
    | none => simp [appendNumF, optNumFs]
    | some x => exact absurd h (by simp [coercesOpt])
  | some pv =>
    cases q with
    | none => exact absurd h (by simp [coercesOpt])
    | some pf =>
      have hpf : pyFloat pv = Except.ok pf := h
      simp [appendNumF, optNumFs, hpf]

/-- Claim C4: for every combination of optional criteria whose numeric
reference values coerce to floats, the factory produces exactly one
predicate per supplied criterion and none for an omitted one, with exact
date as equal, start date as greater-or-equal, end date as less-or-equal,
min bounds as greater-or-equal, max bounds as less-or-equal, hazardous as
equal on the boolean, in the fixed output order date, start date, end date,
distance bounds, velocity bounds, diameter bounds, hazardous. -/
theorem create_filters_spec (date sd ed : Option Date)
    (dmin dmax vmin vmax dimin dimax : Option PyVal) (haz : Option Bool)
    (q1 q2 q3 q4 q5 q6 : Option PyFloat)
    (h1 : coercesOpt dmin q1) (h2 : coercesOpt dmax q2)
    (h3 : coercesOpt vmin q3) (h4 : coercesOpt vmax q4)
    (h5 : coercesOpt dimin q5) (h6 : coercesOpt dimax q6) :
    create_filters date sd ed dmin dmax vmin vmax dimin dimax haz =
      Except.ok (optDateFs date CmpOp.eq ++ optDateFs sd CmpOp.ge ++
        optDateFs ed CmpOp.le ++
        optNumFs q1 (Filter.distance CmpOp.ge) ++
        optNumFs q2 (Filter.distance CmpOp.le) ++
        optNumFs q3 (Filter.velocity CmpOp.ge) ++
        optNumFs q4 (Filter.velocity CmpOp.le) ++
        optNumFs q5 (Filter.diameter CmpOp.ge) ++
        optNumFs q6 (Filter.diameter CmpOp.le) ++
        optHazFs haz) := by
  simp only [create_filters, appendDateF_eq, appendHazF_eq,
    appendNumF_eq dmin q1 h1, appendNumF_eq dmax q2 h2,
    appendNumF_eq vmin q3 h3, appendNumF_eq vmax q4 h4,
    appendNumF_eq dimin q5 h5, appendNumF_eq dimax q6 h6,
    List.nil_append]

/-- Claim C6: the limiter with an absent or zero cap yields the full
sequence, and with a positive cap yields exactly the minimum of the cap and
the sequence length, in original order (a prefix of the sequence). -/
theorem limit_spec (seq : List α) (k : Int) (hk : 0 < k) :
    limit seq none = Except.ok seq ∧
    limit seq (some 0) = Except.ok seq ∧
    limit seq (some k) = Except.ok (seq.take k.toNat) ∧
    (seq.take k.toNat).length = min k.toNat seq.length := by
  have h0 : ¬ k = 0 := by omega
  have h1 : ¬ k < 0 := by omega
  refine ⟨rfl, rfl, ?_, List.length_take _ _⟩
  simp [limit, h0, h1]

/-- Claim C6 witness: the limiter evaluated on a concrete sequence and cap. -/
theorem limit_witness :
    limit ([10, 20, 30] : List Nat) none = Except.ok [10, 20, 30] ∧
    limit ([10, 20, 30] : List Nat) (some 0) = Except.ok [10, 20, 30] ∧
    limit ([10, 20, 30] : List Nat) (some 2) =
      Except.ok (([10, 20, 30] : List Nat).take (2 : Int).toNat) ∧
    (([10, 20, 30] : List Nat).take (2 : Int).toNat).length =
      min (2 : Int).toNat ([10, 20, 30] : List Nat).length :=
  limit_spec [10, 20, 30] 2 (by decide)

/-- Claim C7: evaluating the NEO constructor at an absent diameter (its own
default) raises a type error, and at an unparseable diameter string raises a
value error, instead of normalizing either to the unknown sentinel. -/
theorem neo_init_diameter_bug :
    NearEarthObject.init (some "2000433") none PyVal.vnone false =
      Except.error PyExc.typeError ∧
    NearEarthObject.init (some "2000433") none (PyVal.vstr "abc") false =
      Except.error PyExc.valueError := by
  constructor <;> rfl

/-! Concrete fixtures used by the witnesses. -/

/-- A concrete date. -/
def wDate : Date := Date.mk 2020 1 1

/-- A second concrete date. -/
def wDate2 : Date := Date.mk 2020 1 2

/-- A third concrete date. -/
def wDate3 : Date := Date.mk 2020 12 31

/-- A concrete date-time. -/
def wTime : Datetime := Datetime.mk wDate 0 0

/-- A concrete unlinked close approach. -/
def wApp : CloseApproach :=
  CloseApproach.mk "eros" wTime (PyFloat.val 1) (PyFloat.val 5) none

/-- The same approach once linked to the NEO at position zero. -/
def wAppLinked : CloseApproach :=
  CloseApproach.mk "eros" wTime (PyFloat.val 1) (PyFloat.val 5) (some 0)

/-- A concrete NEO. -/
def wNeo : NearEarthObject :=
  NearEarthObject.mk "eros" (some "Eros") (PyFloat.val 2) false []

/-- A concrete database value. -/
def wDb0 : NEODatabase := NEODatabase.mk [wNeo] [wApp] [("eros", 0)] [("eros", 0)]

/-- A concrete predicate. -/
def wPred : CloseApproach → Bool :=
  fun a => pyCmp CmpOp.le a.distance (PyFloat.val 3)

/-- Claim C2 witness: the query evaluated on a concrete database and
predicate list. -/
theorem query_filters_witness :
    wDb0.query [wPred] =
      wDb0.approaches.filter (fun a => [wPred].all (fun f => f a)) ∧
    wDb0.query [] = wDb0.approaches ∧
    wDb0.query [wPred] = wDb0.query [wPred] := by
  have h := query_filters_spec wDb0 [wPred] [wPred] (List.Perm.refl _)
  exact ⟨h.2.1, h.2.2.1, h.2.2.2⟩

/-- Claim C9 witness: predicate evaluation on a concrete linked approach. -/
theorem filter_eval_witness :
    Filter.eval [wNeo] (Filter.base CmpOp.eq (PyFloat.val 0)) wAppLinked =
      Except.error PyExc.unsupportedCriterionError ∧
    Filter.eval [wNeo] (Filter.date CmpOp.eq wDate) wAppLinked =
      Except.ok (dateCmp CmpOp.eq (DateFilter.get wAppLinked) wDate) ∧
    Filter.eval [wNeo] (Filter.distance CmpOp.eq (PyFloat.val 0)) wAppLinked =
      Except.ok (pyCmp CmpOp.eq (DistanceFilter.get wAppLinked) (PyFloat.val 0)) ∧
    Filter.eval [wNeo] (Filter.velocity CmpOp.eq (PyFloat.val 0)) wAppLinked =
      Except.ok (pyCmp CmpOp.eq (VelocityFilter.get wAppLinked) (PyFloat.val 0)) ∧
    Filter.eval [wNeo] (Filter.diameter CmpOp.eq (PyFloat.val 0)) wAppLinked =
      Except.ok (pyCmp CmpOp.eq wNeo.diameter (PyFloat.val 0)) ∧
    Filter.eval [wNeo] (Filter.hazardous CmpOp.eq true) wAppLinked =
      Except.ok (boolCmp CmpOp.eq wNeo.hazardous true) :=
  filter_eval_spec [wNeo] wAppLinked wAppLinked CmpOp.eq wDate (PyFloat.val 0)
    true 0 wNeo rfl rfl

/-- Claim C10 witness: predicate evaluation on a concrete unlinked
approach. -/
theorem unlinked_filter_witness :
    Filter.eval [wNeo] (Filter.diameter CmpOp.eq (PyFloat.val 0)) wApp =
      Except.error (PyExc.attributeError (noneAttrMsg "diameter")) ∧
    Filter.eval [wNeo] (Filter.hazardous CmpOp.eq true) wApp =
      Except.error (PyExc.attributeError (noneAttrMsg "hazardous")) ∧
    Filter.eval [wNeo] (Filter.date CmpOp.eq wDate) wApp =
      Except.ok (dateCmp CmpOp.eq wApp.time.date wDate) ∧
    Filter.eval [wNeo] (Filter.distance CmpOp.eq (PyFloat.val 0)) wApp =
      Except.ok (pyCmp CmpOp.eq wApp.distance (PyFloat.val 0)) ∧
    Filter.eval [wNeo] (Filter.velocity CmpOp.eq (PyFloat.val 0)) wApp =
      Except.ok (pyCmp CmpOp.eq wApp.velocity (PyFloat.val 0)) :=
  unlinked_filter_spec [wNeo] wApp CmpOp.eq wDate (PyFloat.val 0) true rfl

/-- Claim C4 witness: the factory evaluated on a concrete mixture of
supplied and omitted criteria, including a string-valued numeric reference
coerced to a float. -/
theorem create_filters_witness :
    create_filters (some wDate) (some wDate2) (some wDate3)
      (some (PyVal.vfloat (PyFloat.val 1))) (some (PyVal.vstr "3"))
      (some (PyVal.vfloat (PyFloat.val 2))) none
      none (some (PyVal.vfloat (PyFloat.val 7)))
      (some true) =
      Except.ok [Filter.date CmpOp.eq wDate, Filter.date CmpOp.ge wDate2,
        Filter.date CmpOp.le wDate3,
        Filter.distance CmpOp.ge (PyFloat.val 1),
        Filter.distance CmpOp.le (PyFloat.val 3),
        Filter.velocity CmpOp.ge (PyFloat.val 2),
        Filter.diameter CmpOp.le (PyFloat.val 7),
        Filter.hazardous CmpOp.eq true] := by
  have h := create_filters_spec (some wDate) (some wDate2) (some wDate3)
    (some (PyVal.vfloat (PyFloat.val 1))) (some (PyVal.vstr "3"))
    (some (PyVal.vfloat (PyFloat.val 2))) none
    none (some (PyVal.vfloat (PyFloat.val 7))) (some true)
    (some (PyFloat.val 1)) (some (PyFloat.val 3))
    (some (PyFloat.val 2)) none none (some (PyFloat.val 7))
    (by decide) (by decide) (by decide) trivial trivial (by decide)
  simpa [optDateFs, optNumFs, optHazFs] using h

/-! Error taxonomy of the coercions, needed for the validation claim. -/

theorem pyFloat_error_shape (v : PyVal) (e : PyExc)
    (h : pyFloat v = Except.error e) :
    e = PyExc.typeError ∨ e = PyExc.valueError := by
  cases v with
  | vnone =>
    simp only [pyFloat] at h
    injection h with h2
    exact Or.inl h2.symm
  | vstr s =>
    simp only [pyFloat, pyFloatOfString] at h
    split at h
    · exact Except.noConfusion h
    · split at h
      · exact Except.noConfusion h
      · injection h with h2
        exact Or.inr h2.symm
  | vfloat x =>
    simp only [pyFloat] at h
    exact Except.noConfusion h

theorem cd_to_datetime_error_shape (t : String) (e : PyExc)
    (h : cd_to_datetime t = Except.error e) : e = PyExc.valueError := by
  unfold cd_to_datetime at h
  repeat split at h
  all_goals simp_all

/-- Claim C8: constructing either entity with an absent or empty designation
raises the designation validation error; with a non-empty designation the
designation check never produces that error, and a successful construction
stores the designation unchanged. -/
theorem designation_validation_spec (nm : Option String) (dm : PyVal)
    (hz : Bool) (t : String) (dv vv : PyVal) (d : String) (hd : d ≠ "") :
    NearEarthObject.init none nm dm hz =
      Except.error (PyExc.assertionError designationRequiredMsg) ∧
    NearEarthObject.init (some "") nm dm hz =
      Except.error (PyExc.assertionError designationRequiredMsg) ∧
    CloseApproach.init none t dv vv =
      Except.error (PyExc.assertionError designationRequiredMsg) ∧
    CloseApproach.init (some "") t dv vv =
      Except.error (PyExc.assertionError designationRequiredMsg) ∧
    NearEarthObject.init (some d) nm dm hz ≠
      Except.error (PyExc.assertionError designationRequiredMsg) ∧
    CloseApproach.init (some d) t dv vv ≠
      Except.error (PyExc.assertionError designationRequiredMsg) ∧
    (∀ x, NearEarthObject.init (some d) nm dm hz = Except.ok x →
      x.designation = d) ∧
    (∀ x, CloseApproach.init (some d) t dv vv = Except.ok x →
      x.designation = d) := by
  refine ⟨rfl, rfl, rfl, rfl, ?_, ?_, ?_, ?_⟩
  · intro hcon
    simp only [NearEarthObject.init] at hcon
    rw [if_neg hd] at hcon
    cases hpf : pyFloat dm with
    | error e1 =>
      simp only [hpf] at hcon
      injection hcon with h2
      rcases pyFloat_error_shape dm e1 hpf with h3 | h3 <;> simp [h3] at h2
    | ok f =>
      simp only [hpf] at hcon
      split at hcon <;> split at hcon <;>
        first
          | exact Except.noConfusion hcon
          | (injection hcon with h2; injection h2 with h3;
             exact absurd h3.symm (by decide))
  · intro hcon
    simp only [CloseApproach.init] at hcon
    rw [if_neg hd] at hcon
    cases hcd : cd_to_datetime t with
    | error e1 =>
      simp only [hcd] at hcon
      injection hcon with h2
      have h3 := cd_to_datetime_error_shape t e1 hcd
      simp [h3] at h2
    | ok tt =>
      simp only [hcd] at hcon
      cases hpd : pyFloat dv with
      | error e1 =>
        simp only [hpd] at hcon
        injection hcon with h2
        rcases pyFloat_error_shape dv e1 hpd with h3 | h3 <;> simp [h3] at h2
      | ok f1 =>
        simp only [hpd] at hcon
        cases hpv : pyFloat vv with
        | error e1 =>
          simp only [hpv] at hcon
          injection hcon with h2
          rcases pyFloat_error_shape vv e1 hpv with h3 | h3 <;>
            simp [h3] at h2
        | ok f2 =>
          simp only [hpv] at hcon
          exact Except.noConfusion hcon
  · intro x hok
    simp only [NearEarthObject.init] at hok
    rw [if_neg hd] at hok
    cases hpf : pyFloat dm with
    | error e1 =>
      simp only [hpf] at hok
      exact Except.noConfusion hok
    | ok f =>
      simp only [hpf] at hok
      split at hok <;> split at hok <;>
        first
          | exact Except.noConfusion hok
          | (injection hok with h2; rw [← h2])
  · intro x hok
    simp only [CloseApproach.init] at hok
    rw [if_neg hd] at hok
    cases hcd : cd_to_datetime t with
    | error e1 =>
      simp only [hcd] at hok
      exact Except.noConfusion hok
    | ok tt =>
      simp only [hcd] at hok
      cases hpd : pyFloat dv with
      | error e1 =>
        simp only [hpd] at hok
        exact Except.noConfusion hok
      | ok f1 =>
        simp only [hpd] at hok
        cases hpv : pyFloat vv with
        | error e1 =>
          simp only [hpv] at hok
          exact Except.noConfusion hok
        | ok f2 =>
          simp only [hpv] at hok
          injection hok with h2
          rw [← h2]

/-- Claim C8 witness: the designation validation evaluated on concrete
constructions. -/
theorem designation_validation_witness :
    NearEarthObject.init none none (PyVal.vfloat (PyFloat.val 1)) false =
      Except.error (PyExc.assertionError designationRequiredMsg) ∧
    CloseApproach.init (some "") "2020-Jan-01 00:00" (PyVal.vstr "0.15")
      (PyVal.vstr "5.2") =
      Except.error (PyExc.assertionError designationRequiredMsg) ∧
    CloseApproach.init (some "2000433") "2020-Jan-01 00:00"
      (PyVal.vstr "0.15") (PyVal.vstr "5.2") ≠
      Except.error (PyExc.assertionError designationRequiredMsg) := by
  have h := designation_validation_spec none (PyVal.vfloat (PyFloat.val 1))
    false "2020-Jan-01 00:00" (PyVal.vstr "0.15") (PyVal.vstr "5.2")
    "2000433" (by decide)
  exact ⟨h.1, h.2.2.2.1, h.2.2.2.2.2.1⟩

/-! Characterization of the lookup indices built by the constructor. -/

/-- First-of-two choice on optional positions. -/
def orOpt (a b : Option Nat) : Option Nat :=
  match a with
  | some j => some j
  | none => b

@[simp] theorem orOpt_some (j : Nat) (b : Option Nat) :
    orOpt (some j) b = some j := rfl

@[simp] theorem orOpt_none (b : Option Nat) : orOpt none b = b := rfl

/-- Position of the last NEO (counting from start index i) whose lowercased
designation equals the key: the binding that survives in the dictionary. -/
def lastIdxOf : List NearEarthObject → Nat → String → Option Nat
  | [], _, _ => none
  | neo :: rest, i, key =>
    orOpt (lastIdxOf rest (i + 1) key)
      (if strLower neo.designation = key then some i else none)

/-- Position of the last NEO (counting from start index i) whose lowercased
name equals the key, skipping NEOs without a name. -/
def lastNameIdxOf : List NearEarthObject → Nat → String → Option Nat
  | [], _, _ => none
  | neo :: rest, i, key =>
    orOpt (lastNameIdxOf rest (i + 1) key)
      (match neo.name with
       | some nm => if strLower nm = key then some i else none
       | none => none)

theorem dictGet_insert (d : List (String × Nat)) (k : String) (v : Nat)
    (key : String) :
    dictGet (dictInsert d k v) key =
      if k = key then some v else dictGet d key :=
  rfl

theorem buildIndices_des_get (neos : List NearEarthObject) :
    ∀ (i : Nat) (dIdx nIdx : List (String × Nat)) (key : String),
    dictGet (buildIndices neos i dIdx nIdx).1 key =
      orOpt (lastIdxOf neos i key) (dictGet dIdx key) := by
  induction neos with
  | nil => intro i dIdx nIdx key; rfl
  | cons neo rest ih =>
    intro i dIdx nIdx key
    simp only [buildIndices, lastIdxOf]
    rw [ih]
    cases lastIdxOf rest (i + 1) key with
    | some j => simp
    | none =>
      by_cases hc : strLower neo.designation = key <;>
        simp [hc, dictGet_insert]

theorem buildIndices_name_get (neos : List NearEarthObject) :
    ∀ (i : Nat) (dIdx nIdx : List (String × Nat)) (key : String),
    dictGet (buildIndices neos i dIdx nIdx).2 key =
      orOpt (lastNameIdxOf neos i key) (dictGet nIdx key) := by
  induction neos with
  | nil => intro i dIdx nIdx key; rfl
  | cons neo rest ih =>
    intro i dIdx nIdx key
    simp only [buildIndices, lastNameIdxOf]
    cases hn : neo.name with
    | none =>
      rw [ih]
      cases lastNameIdxOf rest (i + 1) key with
      | some j => simp
      | none => simp
    | some nm =>
      rw [ih]
      cases lastNameIdxOf rest (i + 1) key with
      | some j => simp
      | none =>
        by_cases hc : strLower nm = key <;>
          simp [hc, dictGet_insert]

theorem lastIdxOf_some (neos : List NearEarthObject) :
    ∀ (i j : Nat) (key : String), lastIdxOf neos i key = some j →
    i ≤ j ∧ j - i < neos.length ∧
    ∃ neo, neos[j - i]? = some neo ∧ strLower neo.designation = key := by
  induction neos with
  | nil => intro i j key h; exact absurd h (by simp [lastIdxOf])
  | cons neo rest ih =>
    intro i j key h
    rw [lastIdxOf] at h
    cases hr : lastIdxOf rest (i + 1) key with
    | some j2 =>
      rw [hr, orOpt_some] at h
      injection h with h2
      subst h2
      obtain ⟨h1, h2, neo2, h3, h4⟩ := ih (i + 1) _ key hr
      refine ⟨by omega, by simp only [List.length_cons]; omega, neo2, ?_, h4⟩
      have hji : j2 - i = (j2 - (i + 1)) + 1 := by omega
      rw [hji, List.getElem?_cons_succ]
      exact h3
    | none =>
      rw [hr, orOpt_none] at h
      split at h
      · injection h with h2
        subst h2
        refine ⟨Nat.le_refl _, by simp, neo, ?_, by assumption⟩
        simp [Nat.sub_self]
      · exact absurd h (by simp)

theorem lastIdxOf_none (neos : List NearEarthObject) :
    ∀ (i : Nat) (key : String), lastIdxOf neos i key = none ↔
    ∀ neo ∈ neos, strLower neo.designation ≠ key := by
  induction neos with
  | nil => intro i key; simp [lastIdxOf]
  | cons neo rest ih =>
    intro i key
    rw [lastIdxOf]
    cases hr : lastIdxOf rest (i + 1) key with
    | some j =>
      rw [orOpt_some]
      constructor
      · intro h; exact absurd h (by simp)
      · intro h
        obtain ⟨_, _, neo2, h3, h4⟩ := lastIdxOf_some rest (i + 1) j key hr
        exact absurd h4 (h neo2 (List.mem_cons_of_mem neo (List.getElem?_mem h3)))
    | none =>
      rw [orOpt_none]
      have hrest := (ih (i + 1) key).mp hr
      constructor
      · intro h
        split at h
        · exact absurd h (by simp)
        · intro x hx
          rcases List.mem_cons.mp hx with h5 | h5
          · subst h5; assumption
          · exact hrest x h5
      · intro h
        rw [if_neg (h neo (List.mem_cons_self neo rest))]

theorem lastNameIdxOf_some (neos : List NearEarthObject) :
    ∀ (i j : Nat) (key : String), lastNameIdxOf neos i key = some j →
    i ≤ j ∧ j - i < neos.length ∧
    ∃ neo nm, neos[j - i]? = some neo ∧ neo.name = some nm ∧
      strLower nm = key := by
  induction neos with
  | nil => intro i j key h; exact absurd h (by simp [lastNameIdxOf])
  | cons neo rest ih =>
    intro i j key h
    rw [lastNameIdxOf] at h
    cases hr : lastNameIdxOf rest (i + 1) key with
    | some j2 =>
      rw [hr, orOpt_some] at h
      injection h with h2
      subst h2
      obtain ⟨h1, h2, neo2, nm2, h3, h4, h5⟩ := ih (i + 1) _ key hr
      refine ⟨by omega, by simp only [List.length_cons]; omega,
        neo2, nm2, ?_, h4, h5⟩
      have hji : j2 - i = (j2 - (i + 1)) + 1 := by omega
      rw [hji, List.getElem?_cons_succ]
      exact h3
    | none =>
      rw [hr, orOpt_none] at h
      cases hn : neo.name with
      | none => simp only [hn] at h; exact absurd h (by simp)
      | some nm =>
        simp only [hn] at h
        split at h
        · injection h with h2
          subst h2
          refine ⟨Nat.le_refl _, by simp, neo, nm, ?_, hn, by assumption⟩
          simp [Nat.sub_self]
        · exact absurd h (by simp)

theorem lastNameIdxOf_none (neos : List NearEarthObject) :
    ∀ (i : Nat) (key : String), lastNameIdxOf neos i key = none ↔
    ∀ neo ∈ neos, ∀ nm, neo.name = some nm → strLower nm ≠ key := by
  induction neos with
  | nil => intro i key; simp [lastNameIdxOf]
  | cons neo rest ih =>
    intro i key
    rw [lastNameIdxOf]
    cases hr : lastNameIdxOf rest (i + 1) key with
    | some j =>
      rw [orOpt_some]
      constructor
      · intro h; exact absurd h (by simp)
      · intro h
        obtain ⟨_, _, neo2, nm2, h3, h4, h5⟩ :=
          lastNameIdxOf_some rest (i + 1) j key hr
        exact absurd h5
          (h neo2 (List.mem_cons_of_mem neo (List.getElem?_mem h3)) nm2 h4)
    | none =>
      rw [orOpt_none]
      have hrest := (ih (i + 1) key).mp hr
      constructor
      · intro h
        intro x hx nm hnm
        rcases List.mem_cons.mp hx with h5 | h5
        · subst h5
          simp only [hnm] at h
          split at h
          · exact absurd h (by simp)
          · assumption
        · exact hrest x h5 nm hnm
      · intro h
        cases hn : neo.name with
        | none => rfl
        | some nm =>
          have hne := h neo (List.mem_cons_self neo rest) nm hn
          simp [hne]

theorem lastIdxOf_of_nodup (neos : List NearEarthObject) :
    ∀ (i m : Nat) (key : String) (neo : NearEarthObject),
    (neos.map (fun n => strLower n.designation)).Nodup →
    neos[m]? = some neo → strLower neo.designation = key →
    lastIdxOf neos i key = some (i + m) := by
  induction neos with
  | nil => intro i m key neo _ h _; simp at h
  | cons neo0 rest ih =>
    intro i m key neo hnd hget hkey
    simp only [List.map_cons, List.nodup_cons] at hnd
    obtain ⟨hni, hnd2⟩ := hnd
    rw [lastIdxOf]
    cases m with
    | zero =>
      rw [List.getElem?_cons_zero] at hget
      injection hget with h2
      subst h2
      have hrest : lastIdxOf rest (i + 1) key = none := by
        rw [lastIdxOf_none]
        intro x hx hxk
        apply hni
        rw [hkey, ← hxk]
        exact List.mem_map_of_mem (fun n => strLower n.designation) hx
      rw [hrest, orOpt_none, if_pos hkey]
      simp
    | succ m2 =>
      rw [List.getElem?_cons_succ] at hget
      rw [ih (i + 1) m2 key neo hnd2 hget hkey, orOpt_some]
      simp only [Option.some.injEq]
      omega

/-- The invariant relating the designation index to a NEO collection with
pairwise distinct lowercased designations: a key is bound to a position
exactly when the NEO at that position matches the key. -/
def goodIdx (desIdx : List (String × Nat)) (neos : List NearEarthObject) :
    Prop :=
  ∀ (key : String) (i : Nat), dictGet desIdx key = some i ↔
    ∃ neo, neos[i]? = some neo ∧ strLower neo.designation = key

theorem buildIndices_goodIdx (neos : List NearEarthObject)
    (hnd : (neos.map (fun n => strLower n.designation)).Nodup) :
    goodIdx (buildIndices neos 0 [] []).1 neos := by
  intro key i
  rw [buildIndices_des_get]
  constructor
  · intro h
    cases hr : lastIdxOf neos 0 key with
    | none => rw [hr, orOpt_none] at h; exact absurd h (by simp [dictGet])
    | some j =>
      rw [hr, orOpt_some] at h
      injection h with h2
      subst h2
      obtain ⟨_, h2, neo, h3, h4⟩ := lastIdxOf_some neos 0 _ key hr
      rw [Nat.sub_zero] at h3
      exact ⟨neo, h3, h4⟩
  · rintro ⟨neo, hget, hkey⟩
    rw [lastIdxOf_of_nodup neos 0 i key neo hnd hget hkey, orOpt_some,
      Nat.zero_add]

/-! Behaviour of the linking loop. -/

theorem appendTo_getElem (neos : List NearEarthObject) :
    ∀ (i j : Nat) (app : CloseApproach),
    (appendTo neos i app)[j]? =
      if j = i then
        (neos[j]?).map (fun neo => NearEarthObject.mk neo.designation neo.name
          neo.diameter neo.hazardous (neo.approaches ++ [app]))
      else neos[j]? := by
  induction neos with
  | nil =>
    intro i j app
    simp only [appendTo, List.getElem?_nil]
    split <;> rfl
  | cons neo rest ih =>
    intro i j app
    cases i with
    | zero =>
      cases j with
      | zero => simp [appendTo]
      | succ j2 => simp [appendTo]
    | succ i2 =>
      cases j with
      | zero => simp [appendTo]
      | succ j2 =>
        simp only [appendTo, List.getElem?_cons_succ]
        rw [ih i2 j2 app]
        by_cases h : j2 = i2
        · simp [h]
        · have h2 : ¬ (j2 + 1 = i2 + 1) := by omega
          simp [h, h2]

theorem appendTo_length (neos : List NearEarthObject) :
    ∀ (i : Nat) (app : CloseApproach),
    (appendTo neos i app).length = neos.length := by
  induction neos with
  | nil => intro i app; rfl
  | cons neo rest ih =>
    intro i app
    cases i with
    | zero => simp [appendTo]
    | succ i2 => simp [appendTo, ih]

theorem goodIdx_appendTo (desIdx : List (String × Nat))
    (neos : List NearEarthObject) (i : Nat) (app : CloseApproach)
    (h : goodIdx desIdx neos) : goodIdx desIdx (appendTo neos i app) := by
  intro key j
  rw [h key j, appendTo_getElem]
  by_cases hj : j = i
  · rw [if_pos hj]
    constructor
    · rintro ⟨neo, hget, hkey⟩
      rw [hget]
      exact ⟨_, rfl, hkey⟩
    · rintro ⟨neo2, hget2, hkey2⟩
      cases hg : neos[j]? with
      | none => rw [hg] at hget2; simp at hget2
      | some neo =>
        rw [hg] at hget2
        simp only [Option.map_some'] at hget2
        injection hget2 with h3
        rw [← h3] at hkey2
        exact ⟨neo, rfl, hkey2⟩
  · rw [if_neg hj]

theorem linkLoop_cons_inv (desIdx : List (String × Nat))
    (neos : List NearEarthObject) (app : CloseApproach)
    (rest : List CloseApproach) (neos2 : List NearEarthObject)
    (apps2 : List CloseApproach)
    (h : linkLoop desIdx neos (app :: rest) = Except.ok (neos2, apps2)) :
    ∃ k rest2, dictGet desIdx (strLower app.designation) = some k ∧
      linkLoop desIdx (appendTo neos k (linkApp k app)) rest =
        Except.ok (neos2, rest2) ∧
      apps2 = linkApp k app :: rest2 := by
  rw [linkLoop] at h
  cases hk : dictGet desIdx (strLower app.designation) with
  | none =>
    simp only [hk] at h
    exact Except.noConfusion h
  | some k =>
    simp only [hk] at h
    cases hr : linkLoop desIdx (appendTo neos k (linkApp k app)) rest with
    | error e =>
      simp only [hr] at h
      exact Except.noConfusion h
    | ok p =>
      obtain ⟨neos3, rest2⟩ := p
      simp only [hr] at h
      injection h with h2
      injection h2 with h3 h4
      subst h3
      subst h4
      exact ⟨k, rest2, rfl, hr, rfl⟩

theorem linkLoop_length (desIdx : List (String × Nat))
    (apps : List CloseApproach) :
    ∀ (neos neos2 : List NearEarthObject) (apps2 : List CloseApproach),
    linkLoop desIdx neos apps = Except.ok (neos2, apps2) →
    neos2.length = neos.length ∧ apps2.length = apps.length := by
  induction apps with
  | nil =>
    intro neos neos2 apps2 h
    rw [linkLoop] at h
    injection h with h2
    injection h2 with h3 h4
    subst h3
    subst h4
    exact ⟨rfl, rfl⟩
  | cons app rest ih =>
    intro neos neos2 apps2 h
    obtain ⟨k, rest2, hk, hr, happ⟩ := linkLoop_cons_inv _ _ _ _ _ _ h
    obtain ⟨h1, h2⟩ := ih _ _ _ hr
    subst happ
    constructor
    · rw [h1, appendTo_length]
    · simp [h2]

theorem linkLoop_fields (desIdx : List (String × Nat))
    (apps : List CloseApproach) :
    ∀ (neos neos2 : List NearEarthObject) (apps2 : List CloseApproach),
    linkLoop desIdx neos apps = Except.ok (neos2, apps2) →
    ∀ i : Nat,
      (neos2[i]?).map (fun n => n.designation) =
        (neos[i]?).map (fun n => n.designation) ∧
      (neos2[i]?).map (fun n => n.name) =
        (neos[i]?).map (fun n => n.name) := by
  induction apps with
  | nil =>
    intro neos neos2 apps2 h i
    rw [linkLoop] at h
    injection h with h2
    injection h2 with h3 h4
    subst h3
    exact ⟨rfl, rfl⟩
  | cons app rest ih =>
    intro neos neos2 apps2 h i
    obtain ⟨k, rest2, hk, hr, happ⟩ := linkLoop_cons_inv _ _ _ _ _ _ h
    obtain ⟨h1, h2⟩ := ih _ _ _ hr i
    constructor
    · rw [h1, appendTo_getElem]
      by_cases hj : i = k
      · rw [if_pos hj]
        cases hg : neos[i]? <;> simp [hg]
      · rw [if_neg hj]
    · rw [h2, appendTo_getElem]
      by_cases hj : i = k
      · rw [if_pos hj]
        cases hg : neos[i]? <;> simp [hg]
      · rw [if_neg hj]

theorem linkLoop_apps (desIdx : List (String × Nat))
    (apps : List CloseApproach) :
    ∀ (neos neos2 : List NearEarthObject) (apps2 : List CloseApproach),
    linkLoop desIdx neos apps = Except.ok (neos2, apps2) →
    ∀ ca ∈ apps2, ∃ i : Nat, ca.neo = some i ∧
      dictGet desIdx (strLower ca.designation) = some i := by
  induction apps with
  | nil =>
    intro neos neos2 apps2 h ca hca
    rw [linkLoop] at h
    injection h with h2
    injection h2 with h3 h4
    subst h4
    exact absurd hca (by simp)
  | cons app rest ih =>
    intro neos neos2 apps2 h ca hca
    obtain ⟨k, rest2, hk, hr, happ⟩ := linkLoop_cons_inv _ _ _ _ _ _ h
    subst happ
    rcases List.mem_cons.mp hca with h5 | h5
    · subst h5
      exact ⟨k, rfl, hk⟩
    · exact ih _ _ _ hr ca h5

theorem linkLoop_ok (desIdx : List (String × Nat)) (apps : List CloseApproach) :
    ∀ neos : List NearEarthObject,
    (∀ a ∈ apps, (dictGet desIdx (strLower a.designation)).isSome = true) →
    ∃ p, linkLoop desIdx neos apps = Except.ok p := by
  induction apps with
  | nil => intro neos _; exact ⟨(neos, []), rfl⟩
  | cons app rest ih =>
    intro neos hall
    have h1 := hall app (List.mem_cons_self app rest)
    cases hk : dictGet desIdx (strLower app.designation) with
    | none => rw [hk] at h1; exact absurd h1 (by simp)
    | some k =>
      obtain ⟨p, hp⟩ := ih (appendTo neos k (linkApp k app))
        (fun a ha => hall a (List.mem_cons_of_mem app ha))
      obtain ⟨neos3, rest2⟩ := p
      refine ⟨(neos3, linkApp k app :: rest2), ?_⟩
      rw [linkLoop]
      simp only [hk, hp]

theorem linkLoop_ok_bound (desIdx : List (String × Nat))
    (apps : List CloseApproach) :
    ∀ (neos : List NearEarthObject)
      (p : List NearEarthObject × List CloseApproach),
    linkLoop desIdx neos apps = Except.ok p →
    ∀ a ∈ apps, (dictGet desIdx (strLower a.designation)).isSome = true := by
  induction apps with
  | nil => intro neos p h a ha; exact absurd ha (by simp)
  | cons app rest ih =>
    intro neos p h a ha
    obtain ⟨neos2, apps2⟩ := p
    obtain ⟨k, rest2, hk, hr, happ⟩ := linkLoop_cons_inv _ _ _ _ _ _ h
    rcases List.mem_cons.mp ha with h5 | h5
    · subst h5; rw [hk]; rfl
    · exact ih _ _ hr a h5

theorem linkLoop_error (desIdx : List (String × Nat))
    (apps : List CloseApproach) :
    ∀ (neos : List NearEarthObject) (e : PyExc),
    linkLoop desIdx neos apps = Except.error e →
    ∃ a ∈ apps, e = PyExc.keyError (strLower a.designation) ∧
      dictGet desIdx (strLower a.designation) = none := by
  induction apps with
  | nil => intro neos e h; rw [linkLoop] at h; exact absurd h (by simp)
  | cons app rest ih =>
    intro neos e h
    rw [linkLoop] at h
    cases hk : dictGet desIdx (strLower app.designation) with
    | none =>
      simp only [hk] at h
      injection h with h2
      exact ⟨app, List.mem_cons_self app rest, h2.symm, hk⟩
    | some k =>
      simp only [hk] at h
      cases hr : linkLoop desIdx (appendTo neos k (linkApp k app)) rest with
      | error e2 =>
        simp only [hr] at h
        injection h with h2
        subst h2
        obtain ⟨a, ha, he, hd⟩ := ih _ _ hr
        exact ⟨a, List.mem_cons_of_mem app ha, he, hd⟩
      | ok p =>
        obtain ⟨neos3, rest2⟩ := p
        simp only [hr] at h
        exact Except.noConfusion h

theorem linkLoop_neos (desIdx : List (String × Nat))
    (apps : List CloseApproach) :
    ∀ (neos neos2 : List NearEarthObject) (apps2 : List CloseApproach),
    goodIdx desIdx neos →
    linkLoop desIdx neos apps = Except.ok (neos2, apps2) →
    ∀ (i : Nat) (neo : NearEarthObject), neos[i]? = some neo →
    neos2[i]? = some (NearEarthObject.mk neo.designation neo.name neo.diameter
      neo.hazardous (neo.approaches ++
        (apps.filter (fun a =>
          decide (strLower a.designation = strLower neo.designation))).map
          (linkApp i))) := by
  induction apps with
  | nil =>
    intro neos neos2 apps2 hgood h i neo hget
    rw [linkLoop] at h
    injection h with h2
    injection h2 with h3 h4
    subst h3
    simp only [List.filter_nil, List.map_nil, List.append_nil]
    exact hget
  | cons app rest ih =>
    intro neos neos2 apps2 hgood h i neo hget
    obtain ⟨k, rest2, hk, hr, happ⟩ := linkLoop_cons_inv _ _ _ _ _ _ h
    have hgood2 := goodIdx_appendTo desIdx neos k (linkApp k app) hgood
    by_cases hik : i = k
    · subst hik
      obtain ⟨neo', hget', hkey'⟩ := (hgood (strLower app.designation) i).mp hk
      rw [hget] at hget'
      injection hget' with h5
      subst h5
      have hset : (appendTo neos i (linkApp i app))[i]? =
          some (NearEarthObject.mk neo.designation neo.name neo.diameter
            neo.hazardous (neo.approaches ++ [linkApp i app])) := by
        rw [appendTo_getElem, if_pos rfl, hget]
        rfl
      have hres := ih _ _ _ hgood2 hr i _ hset
      rw [hres]
      have hpred : (decide (strLower app.designation =
          strLower neo.designation)) = true := by
        rw [decide_eq_true_eq]
        exact hkey'.symm
      simp [List.filter_cons, hpred, List.append_assoc]
    · have hset : (appendTo neos k (linkApp k app))[i]? = some neo := by
        rw [appendTo_getElem, if_neg hik]
        exact hget
      have hres := ih _ _ _ hgood2 hr i neo hset
      rw [hres]
      have hpred : (decide (strLower app.designation =
          strLower neo.designation)) = false := by
        apply decide_eq_false
        intro hc
        have hsome := (hgood (strLower app.designation) i).mpr
          ⟨neo, hget, hc.symm⟩
        rw [hk] at hsome
        injection hsome with h6
        exact hik h6.symm
      simp [List.filter_cons, hpred]

/-! The three database claims. -/

theorem query_nil (db : NEODatabase) : db.query [] = db.approaches := by
  unfold NEODatabase.query
  apply List.filter_eq_self.mpr
  intro a _
  rfl

theorem des_index_none_iff (neos : List NearEarthObject) (key : String) :
    dictGet (buildIndices neos 0 [] []).1 key = none ↔
    ∀ neo ∈ neos, strLower neo.designation ≠ key := by
  rw [buildIndices_des_get]
  cases hr : lastIdxOf neos 0 key with
  | some j =>
    rw [orOpt_some]
    constructor
    · intro hcon; exact absurd hcon (by simp)
    · intro hno
      obtain ⟨_, _, neo, h3, h4⟩ := lastIdxOf_some neos 0 j key hr
      exact absurd h4 (hno neo (List.getElem?_mem h3))
  | none =>
    rw [orOpt_none]
    constructor
    · intro _; exact (lastIdxOf_none neos 0 key).mp hr
    · intro _; rfl

/-- Claim C3: construction succeeds whenever every approach designation
matches some NEO case-insensitively; any construction failure is a lookup
error naming the lowercased designation of an unmatched approach; and an
unmatched approach always makes construction fail (no silent skip). -/
theorem construction_lookup_spec (neos : List NearEarthObject)
    (apps : List CloseApproach) :
    ((∀ a ∈ apps, ∃ neo ∈ neos,
        strLower neo.designation = strLower a.designation) →
      ∃ db, NEODatabase.init neos apps = Except.ok db) ∧
    (∀ e, NEODatabase.init neos apps = Except.error e →
      ∃ a ∈ apps, e = PyExc.keyError (strLower a.designation) ∧
        ∀ neo ∈ neos, strLower neo.designation ≠ strLower a.designation) ∧
    ((∃ a ∈ apps, ∀ neo ∈ neos,
        strLower neo.designation ≠ strLower a.designation) →
      ∃ e, NEODatabase.init neos apps = Except.error e) := by
  refine ⟨?_, ?_, ?_⟩
  · intro hall
    have hsome : ∀ a ∈ apps,
        (dictGet (buildIndices neos 0 [] []).1
          (strLower a.designation)).isSome = true := by
      intro a ha
      cases hd : dictGet (buildIndices neos 0 [] []).1
          (strLower a.designation) with
      | some k => rfl
      | none =>
        obtain ⟨neo, hneo, hkey⟩ := hall a ha
        exact absurd hkey ((des_index_none_iff neos _).mp hd neo hneo)
    obtain ⟨p, hp⟩ := linkLoop_ok _ apps neos hsome
    obtain ⟨neos2, apps2⟩ := p
    refine ⟨NEODatabase.mk neos2 apps2 (buildIndices neos 0 [] []).1
      (buildIndices neos 0 [] []).2, ?_⟩
    simp only [NEODatabase.init, hp]
  · intro e he
    simp only [NEODatabase.init] at he
    cases hl : linkLoop (buildIndices neos 0 [] []).1 neos apps with
    | ok p =>
      obtain ⟨neos2, apps2⟩ := p
      simp only [hl] at he
      exact Except.noConfusion he
    | error e2 =>
      simp only [hl] at he
      injection he with h2
      subst h2
      obtain ⟨a, ha, hkey, hnone⟩ := linkLoop_error _ apps neos e2 hl
      exact ⟨a, ha, hkey, (des_index_none_iff neos _).mp hnone⟩
  · rintro ⟨a, ha, hno⟩
    cases hinit : NEODatabase.init neos apps with
    | error e => exact ⟨e, rfl⟩
    | ok db =>
      simp only [NEODatabase.init] at hinit
      cases hl : linkLoop (buildIndices neos 0 [] []).1 neos apps with
      | error e2 =>
        simp only [hl] at hinit
        exact Except.noConfusion hinit
      | ok p =>
        have hbound := linkLoop_ok_bound _ apps neos p hl a ha
        have hnone : dictGet (buildIndices neos 0 [] []).1
            (strLower a.designation) = none :=
          (des_index_none_iff neos _).mpr hno
        rw [hnone] at hbound
        exact absurd hbound (by simp)

/-- A concrete approach whose designation matches no NEO. -/
def cBadApp : CloseApproach :=
  CloseApproach.mk "zzz" wTime (PyFloat.val 1) (PyFloat.val 1) none

/-- Claim C3 witness: construction evaluated on a matching collection and on
one containing an unmatched approach. -/
theorem construction_lookup_witness :
    (∃ db, NEODatabase.init [wNeo] [wApp] = Except.ok db) ∧
    (∃ e, NEODatabase.init [wNeo] [wApp, cBadApp] = Except.error e) :=
  ⟨(construction_lookup_spec [wNeo] [wApp]).1 (by decide),
   (construction_lookup_spec [wNeo] [wApp, cBadApp]).2.2 (by decide)⟩

/-- Claim C1 (amended with the spec's precondition that the NEOs' lowercased
designations are pairwise distinct, and the data-model invariant that each
NEO starts with an empty approaches sequence): after a successful
construction, every approach yielded by an unfiltered query carries a
resolved NEO reference with a case-insensitively equal designation, and each
NEO's approaches sequence is exactly the input approaches matching its
designation case-insensitively, linked to it, in input order. -/
theorem linking_invariant_amended (neos : List NearEarthObject)
    (apps : List CloseApproach) (db : NEODatabase)
    (hnd : (neos.map (fun n => strLower n.designation)).Nodup)
    (hempty : ∀ neo ∈ neos, neo.approaches = [])
    (hok : NEODatabase.init neos apps = Except.ok db) :
    (∀ ca ∈ db.query [], ∃ i neo, ca.neo = some i ∧ db.neos[i]? = some neo ∧
      strLower neo.designation = strLower ca.designation) ∧
    db.neos.length = neos.length ∧
    (∀ (i : Nat) (neo : NearEarthObject), neos[i]? = some neo →
      db.neos[i]? = some (NearEarthObject.mk neo.designation neo.name
        neo.diameter neo.hazardous
        ((apps.filter (fun a =>
          decide (strLower a.designation = strLower neo.designation))).map
          (linkApp i)))) := by
  simp only [NEODatabase.init] at hok
  cases hl : linkLoop (buildIndices neos 0 [] []).1 neos apps with
  | error e =>
    simp only [hl] at hok
    exact Except.noConfusion hok
  | ok p =>
    obtain ⟨neos2, apps2⟩ := p
    simp only [hl] at hok
    injection hok with h2
    subst h2
    dsimp only
    have hgood := buildIndices_goodIdx neos hnd
    refine ⟨?_, (linkLoop_length _ _ _ _ _ hl).1, ?_⟩
    · intro ca hca
      rw [query_nil] at hca
      obtain ⟨i, hneo, hdict⟩ := linkLoop_apps _ apps _ _ _ hl ca hca
      obtain ⟨neo, hget, hkey⟩ := (hgood _ i).mp hdict
      have hres := linkLoop_neos _ apps _ _ _ hgood hl i neo hget
      exact ⟨i, _, hneo, hres, hkey⟩
    · intro i neo hget
      have hres := linkLoop_neos _ apps _ _ _ hgood hl i neo hget
      rw [hres, hempty neo (List.getElem?_mem hget)]
      simp

/-! Concrete database fixtures for the linking claims. -/

/-- The NEO of the witness database after linking. -/
def wNeoLinked : NearEarthObject :=
  NearEarthObject.mk "eros" (some "Eros") (PyFloat.val 2) false [wAppLinked]

/-- The witness database built from one NEO and one approach. -/
def wDbLinked : NEODatabase :=
  NEODatabase.mk [wNeoLinked] [wAppLinked] [("eros", 0)] [("eros", 0)]

/-- Claim C1 witness: the amended linking invariant evaluated on a concrete
database with one NEO and one approach. -/
theorem linking_invariant_witness :
    (∃ i neo, wAppLinked.neo = some i ∧ wDbLinked.neos[i]? = some neo ∧
      strLower neo.designation = strLower wAppLinked.designation) ∧
    wDbLinked.neos.length = [wNeo].length ∧
    wDbLinked.neos[0]? = some (NearEarthObject.mk wNeo.designation wNeo.name
      wNeo.diameter wNeo.hazardous
      (([wApp].filter (fun a =>
        decide (strLower a.designation = strLower wNeo.designation))).map
        (linkApp 0))) := by
  have h := linking_invariant_amended [wNeo] [wApp] wDbLinked (by decide)
    (by decide) (by rfl)
  exact ⟨h.1 wAppLinked (by decide), h.2.1, h.2.2 0 wNeo rfl⟩

/-- First NEO of the counterexample, lowercase designation. -/
def cNeoA : NearEarthObject :=
  NearEarthObject.mk "eros" none PyFloat.nan false []

/-- Second NEO of the counterexample, same designation in uppercase. -/
def cNeoB : NearEarthObject :=
  NearEarthObject.mk "EROS" none PyFloat.nan false []

/-- The approach of the counterexample. -/
def cApp : CloseApproach :=
  CloseApproach.mk "eros" wTime (PyFloat.val 1) (PyFloat.val 1) none

/-- The approach of the counterexample once linked (to the second NEO). -/
def cAppLinked : CloseApproach :=
  CloseApproach.mk "eros" wTime (PyFloat.val 1) (PyFloat.val 1) (some 1)

/-- The database the constructor builds in the counterexample. -/
def cDb : NEODatabase :=
  NEODatabase.mk
    [cNeoA, NearEarthObject.mk "EROS" none PyFloat.nan false [cAppLinked]]
    [cAppLinked] [("eros", 1), ("eros", 0)] []

/-- Claim C1 counterexample: with two NEOs whose designations differ only in
case, construction succeeds and every approach matches some NEO
case-insensitively, yet the first NEO's approaches sequence stays empty even
though one input approach matches its designation — the last-write-wins
index sent the approach to the second NEO only. -/
theorem linking_invariant_counterexample :
    (∀ a ∈ [cApp], ∃ neo ∈ [cNeoA, cNeoB],
      strLower neo.designation = strLower a.designation) ∧
    (∀ neo ∈ [cNeoA, cNeoB], neo.approaches = []) ∧
    NEODatabase.init [cNeoA, cNeoB] [cApp] = Except.ok cDb ∧
    cDb.neos[0]? = some cNeoA ∧
    cNeoA.approaches.length = 0 ∧
    ([cApp].filter (fun a =>
      decide (strLower a.designation = strLower cNeoA.designation))).length
      = 1 := by
  exact ⟨by decide, by decide, by rfl, rfl, rfl, by decide⟩

/-- Claim C5: lookup by designation and by name is case-insensitive, returns
an absent result exactly when no NEO matches (never an exception, by type),
and any returned NEO is one of the database's NEOs with a matching
lowercased key. -/
theorem get_neo_lookup_spec (neos : List NearEarthObject)
    (apps : List CloseApproach) (db : NEODatabase) (s : String)
    (hok : NEODatabase.init neos apps = Except.ok db) :
    (db.get_neo_by_designation s = none ↔
      ∀ neo ∈ neos, strLower neo.designation ≠ strLower s) ∧
    (∀ neo, db.get_neo_by_designation s = some neo →
      neo ∈ db.neos ∧ strLower neo.designation = strLower s) ∧
    (db.get_neo_by_name s = none ↔
      ∀ neo ∈ neos, ∀ nm, neo.name = some nm → strLower nm ≠ strLower s) ∧
    (∀ neo, db.get_neo_by_name s = some neo →
      neo ∈ db.neos ∧ ∃ nm, neo.name = some nm ∧ strLower nm = strLower s) := by
  simp only [NEODatabase.init] at hok
  cases hl : linkLoop (buildIndices neos 0 [] []).1 neos apps with
  | error e =>
    simp only [hl] at hok
    exact Except.noConfusion hok
  | ok p =>
    obtain ⟨neos2, apps2⟩ := p
    simp only [hl] at hok
    injection hok with h2
    subst h2
    have hlen := (linkLoop_length _ _ _ _ _ hl).1
    have hfields := linkLoop_fields _ _ _ _ _ hl
    refine ⟨?_, ?_, ?_, ?_⟩
    · simp only [NEODatabase.get_neo_by_designation]
      rw [buildIndices_des_get]
      cases hr : lastIdxOf neos 0 (strLower s) with
      | none =>
        rw [orOpt_none]
        constructor
        · intro _; exact (lastIdxOf_none neos 0 _).mp hr
        · intro _; rfl
      | some j =>
        rw [orOpt_some]
        obtain ⟨_, hjlen, neo, h3, h4⟩ := lastIdxOf_some neos 0 j _ hr
        rw [Nat.sub_zero] at h3 hjlen
        have hex : ∃ neo2, neos2[j]? = some neo2 := by
          have hmap := (hfields j).1
          rw [h3] at hmap
          cases hg : neos2[j]? with
          | none => rw [hg] at hmap; simp at hmap
          | some neo2 => exact ⟨neo2, rfl⟩
        obtain ⟨neo2, hg2⟩ := hex
        simp only [hg2]
        constructor
        · intro hcon; exact absurd hcon (by simp)
        · intro hno; exact absurd h4 (hno neo (List.getElem?_mem h3))
    · intro neo2 hsome
      simp only [NEODatabase.get_neo_by_designation] at hsome
      rw [buildIndices_des_get] at hsome
      cases hr : lastIdxOf neos 0 (strLower s) with
      | none =>
        rw [hr, orOpt_none] at hsome
        exact absurd hsome (by simp [dictGet])
      | some j =>
        rw [hr, orOpt_some] at hsome
        simp only [] at hsome
        obtain ⟨_, hjlen, neo, h3, h4⟩ := lastIdxOf_some neos 0 j _ hr
        rw [Nat.sub_zero] at h3
        refine ⟨List.getElem?_mem hsome, ?_⟩
        have hmap := (hfields j).1
        rw [h3, hsome] at hmap
        simp only [Option.map_some'] at hmap
        injection hmap with h6
        rw [h6]
        exact h4
    · simp only [NEODatabase.get_neo_by_name]
      rw [buildIndices_name_get]
      cases hr : lastNameIdxOf neos 0 (strLower s) with
      | none =>
        rw [orOpt_none]
        constructor
        · intro _; exact (lastNameIdxOf_none neos 0 _).mp hr
        · intro _; rfl
      | some j =>
        rw [orOpt_some]
        obtain ⟨_, hjlen, neo, nm, h3, h4, h5⟩ :=
          lastNameIdxOf_some neos 0 j _ hr
        rw [Nat.sub_zero] at h3 hjlen
        have hex : ∃ neo2, neos2[j]? = some neo2 := by
          have hmap := (hfields j).2
          rw [h3] at hmap
          cases hg : neos2[j]? with
          | none => rw [hg] at hmap; simp at hmap
          | some neo2 => exact ⟨neo2, rfl⟩
        obtain ⟨neo2, hg2⟩ := hex
        simp only [hg2]
        constructor
        · intro hcon; exact absurd hcon (by simp)
        · intro hno; exact absurd h5 (hno neo (List.getElem?_mem h3) nm h4)
    · intro neo2 hsome
      simp only [NEODatabase.get_neo_by_name] at hsome
      rw [buildIndices_name_get] at hsome
      cases hr : lastNameIdxOf neos 0 (strLower s) with
      | none =>
        rw [hr, orOpt_none] at hsome
        exact absurd hsome (by simp [dictGet])
      | some j =>
        rw [hr, orOpt_some] at hsome
        simp only [] at hsome
        obtain ⟨_, hjlen, neo, nm, h3, h4, h5⟩ :=
          lastNameIdxOf_some neos 0 j _ hr
        rw [Nat.sub_zero] at h3
        refine ⟨List.getElem?_mem hsome, nm, ?_, h5⟩
        have hmap := (hfields j).2
        rw [h3, hsome] at hmap
        simp only [Option.map_some'] at hmap
        injection hmap with h6
        rw [h6]
        exact h4

/-- Claim C5 witness: lookup evaluated on the concrete witness database with
matching and non-matching keys of mixed case. -/
theorem get_neo_lookup_witness :
    wDbLinked.get_neo_by_designation "unknown" = none ∧
    (wNeoLinked ∈ wDbLinked.neos ∧
      strLower wNeoLinked.designation = strLower "EROS") ∧
    wDbLinked.get_neo_by_name "nemo" = none ∧
    (wNeoLinked ∈ wDbLinked.neos ∧
      ∃ nm, wNeoLinked.name = some nm ∧ strLower nm = strLower "EROS") := by
  have h1 := get_neo_lookup_spec [wNeo] [wApp] wDbLinked "unknown" (by rfl)
  have h2 := get_neo_lookup_spec [wNeo] [wApp] wDbLinked "EROS" (by rfl)
  have h3 := get_neo_lookup_spec [wNeo] [wApp] wDbLinked "nemo" (by rfl)
  exact ⟨h1.1.mpr (by decide), h2.2.1 wNeoLinked (by rfl),
    h3.2.2.1.mpr (by decide), h2.2.2.2 wNeoLinked (by rfl)⟩

end NeoExplorer
